import Mathlib

/-!
Verification development for the manifest extraction and serialization engine
of the JH-Toolkit repository (`.github/workflows/generate_dependencies.py`).

The Python engine extracts a project version and dependency records from two
CMake configuration texts with three regular expressions, assembles a manifest
model, and renders it to a TOML-like text plus a badge descriptor.  This file
gives a shallow embedding of that engine: the regular-expression matching is
embedded by a small backtracking matcher over `List Char` that mirrors the
semantics of the Python `re` module on the three concrete patterns used
(greedy and lazy quantifiers over character classes, tried in the same order
as the Python engine explores them), and the rest of the script is translated
function by function.  The token class `\d` is embedded with the full table
of Unicode decimal digits (general category Nd), matching Python `str`
pattern semantics; `\s`, `\w` and `re.IGNORECASE` follow their ASCII
reading, which covers every configuration text the script is applied to.
-/

/-- ASCII whitespace, the characters matched by `\s`. -/
def isSpaceChar (c : Char) : Bool :=
  c == ' ' || c == '\t' || c == '\n' || c == '\r' || c == '\x0b' || c == '\x0c'

/-- The code-point ranges of the Unicode decimal digits (general category
Nd), the characters matched by `\d` in a Python `str` pattern without
`re.ASCII`, as inclusive `(first, last)` bounds. -/
def ndRanges : List (Nat × Nat) :=
  [(48, 57), (1632, 1641), (1776, 1785), (1984, 1993), (2406, 2415), (2534,
   2543), (2662, 2671), (2790, 2799), (2918, 2927), (3046, 3055), (3174,
   3183), (3302, 3311), (3430, 3439), (3558, 3567), (3664, 3673), (3792,
   3801), (3872, 3881), (4160, 4169), (4240, 4249), (6112, 6121), (6160,
   6169), (6470, 6479), (6608, 6617), (6784, 6793), (6800, 6809), (6992,
   7001), (7088, 7097), (7232, 7241), (7248, 7257), (42528, 42537), (43216,
   43225), (43264, 43273), (43472, 43481), (43504, 43513), (43600, 43609),
   (44016, 44025), (65296, 65305), (66720, 66729), (68912, 68921), (69734,
   69743), (69872, 69881), (69942, 69951), (70096, 70105), (70384, 70393),
   (70736, 70745), (70864, 70873), (71248, 71257), (71360, 71369), (71472,
   71481), (71904, 71913), (72016, 72025), (72784, 72793), (73040, 73049),
   (73120, 73129), (92768, 92777), (92864, 92873), (93008, 93017), (120782,
   120831), (123200, 123209), (123632, 123641), (125264, 125273), (130032,
   130041)]

/-- Whether a character is a Unicode decimal digit, `\d`. -/
def isNdDigit (c : Char) : Bool :=
  ndRanges.any (fun r => decide (r.1 ≤ c.toNat ∧ c.toNat ≤ r.2))

/-- The characters matched by `[\d.]`: Unicode decimal digits and the dot. -/
def isVerChar (c : Char) : Bool :=
  isNdDigit c || c == '.'

/-- The characters matched by `\w`: ASCII letters, digits and underscore. -/
def isWordChar (c : Char) : Bool :=
  decide ((65 ≤ c.toNat ∧ c.toNat ≤ 90) ∨ (97 ≤ c.toNat ∧ c.toNat ≤ 122) ∨
          (48 ≤ c.toNat ∧ c.toNat ≤ 57) ∨ c = '_')

/-- The characters matched by `[^\s)]`. -/
def isTagChar (c : Char) : Bool :=
  !isSpaceChar c && c != ')'

/-- ASCII lower-casing, the effect of `re.IGNORECASE` on the letters involved. -/
def lowerChar (c : Char) : Char :=
  if 65 ≤ c.toNat ∧ c.toNat ≤ 90 then Char.ofNat (c.toNat + 32) else c

/-- Single-character comparison, case-insensitively when `ci` is set. -/
def charMatch (ci : Bool) (a c : Char) : Bool :=
  if ci then lowerChar a == lowerChar c else a == c

/-- Match a literal at the head of the input, returning the remainder. -/
def stripLit : List Char → Bool → List Char → Option (List Char)
  | [], _, cs => some cs
  | _ :: _, _, [] => none
  | a :: s, ci, c :: cs => if charMatch ci a c then stripLit s ci cs else none

/-- All splits `(a, b)` of the input with `cs = a ++ b` and `a` a prefix of the
maximal run of `p`-characters, shortest `a` first. -/
def prefixSplits (p : Char → Bool) : List Char → List (List Char × List Char)
  | [] => [([], [])]
  | c :: cs =>
    if p c then
      ([], c :: cs) :: (prefixSplits p cs).map (fun pr => (c :: pr.1, pr.2))
    else [([], c :: cs)]

/-- Candidate splits for a greedy `p*`, longest consumed prefix first. -/
def greedyStarCands (p : Char → Bool) (cs : List Char) :
    List (List Char × List Char) :=
  (prefixSplits p cs).reverse

/-- Candidate splits for a greedy `p+`, longest consumed prefix first. -/
def greedyPlusCands (p : Char → Bool) (cs : List Char) :
    List (List Char × List Char) :=
  ((prefixSplits p cs).filter (fun pr => !pr.1.isEmpty)).reverse

/-- Candidate splits for a lazy `p+?`, shortest consumed prefix first. -/
def lazyPlusCands (p : Char → Bool) (cs : List Char) :
    List (List Char × List Char) :=
  (prefixSplits p cs).filter (fun pr => !pr.1.isEmpty)

/-- One element of a regular expression, as used by the three patterns of
the script: a literal (possibly case-insensitive), a greedy star or plus over
a character class, and capturing greedy/lazy plus over a character class. -/
inductive RElem where
  | lit (s : List Char) (ci : Bool)
  | starG (p : Char → Bool)
  | plusG (p : Char → Bool)
  | grpPlusG (p : Char → Bool)
  | grpPlusL (p : Char → Bool)

mutual

/-- Backtracking matcher: match the sequence of elements at the head of the
input, returning the remaining input and the captures, exploring quantifier
choices in the same order as the Python `re` engine (greedy: longest first;
lazy: shortest first). -/
def matchElems (es : List RElem) (cs : List Char) (caps : List (List Char)) :
    Option (List Char × List (List Char)) :=
  match es with
  | [] => some (cs, caps)
  | .lit s ci :: rest =>
    match stripLit s ci cs with
    | some cs' => matchElems rest cs' caps
    | none => none
  | .starG p :: rest => tryCands rest (greedyStarCands p cs) caps false
  | .plusG p :: rest => tryCands rest (greedyPlusCands p cs) caps false
  | .grpPlusG p :: rest => tryCands rest (greedyPlusCands p cs) caps true
  | .grpPlusL p :: rest => tryCands rest (lazyPlusCands p cs) caps true
termination_by (es.length, 0)

/-- Try the candidate splits of a quantifier in order, continuing with the
rest of the pattern; the first full success wins.  When `capIt` is set the
consumed prefix is appended to the captures. -/
def tryCands (es : List RElem) (cands : List (List Char × List Char))
    (caps : List (List Char)) (capIt : Bool) :
    Option (List Char × List (List Char)) :=
  match cands with
  | [] => none
  | (a, b) :: more =>
    match matchElems es b (if capIt then caps ++ [a] else caps) with
    | some r => some r
    | none => tryCands es more caps capIt
termination_by (es.length, cands.length + 1)

end

/-- `re.search`: try a full match at every position, left to right; return
the captures of the first success. -/
def searchCaps (pat : List RElem) : List Char → Option (List (List Char))
  | [] => (matchElems pat [] []).map Prod.snd
  | c :: tl =>
    match matchElems pat (c :: tl) [] with
    | some r => some r.2
    | none => searchCaps pat tl

/-- `re.finditer`: scan left to right, collecting the captures of each
non-overlapping match and continuing after its end. -/
def finditerAux (pat : List RElem) : Nat → List Char → List (List (List Char))
  | 0, _ => []
  | _ + 1, [] =>
    match matchElems pat [] [] with
    | some r => [r.2]
    | none => []
  | fuel + 1, c :: tl =>
    match matchElems pat (c :: tl) [] with
    | some r => r.2 :: finditerAux pat fuel r.1
    | none => finditerAux pat fuel tl

/-- All capture lists of the pattern over the text, in match order. -/
def finditerCaps (pat : List RElem) (content : String) :
    List (List (List Char)) :=
  finditerAux pat (content.data.length + 1) content.data

/-! ### The three patterns of the script -/

/-- The literal `set` of the version pattern. -/
def litSET : List Char := ['s', 'e', 't']

/-- The literal `\(`. -/
def litLP : List Char := ['(']

/-- The literal `\)`. -/
def litRP : List Char := [')']

/-- The literal `PROJECT_VERSION`. -/
def litPV : List Char :=
  ['P', 'R', 'O', 'J', 'E', 'C', 'T', '_', 'V', 'E', 'R', 'S', 'I', 'O', 'N']

/-- `set\s*\(\s*PROJECT_VERSION\s+([\d.]+)\s*\)` with `re.IGNORECASE`. -/
def versionElems : List RElem :=
  [.lit litSET true, .starG isSpaceChar, .lit litLP true, .starG isSpaceChar,
   .lit litPV true, .plusG isSpaceChar, .grpPlusG isVerChar,
   .starG isSpaceChar, .lit litRP true]

/-- `FetchContent_MakeAvailable\((\w+)\)`. -/
def fetchElems : List RElem :=
  [.lit "FetchContent_MakeAvailable(".data false, .grpPlusG isWordChar,
   .lit litRP false]

/-- `FetchContent_Declare\(\s*(\w+)\s+GIT_REPOSITORY\s+(.+?)\s+GIT_TAG\s+([^\s)]+)`
with `re.DOTALL`, so `.` in the lazy group matches any character. -/
def declareElems : List RElem :=
  [.lit "FetchContent_Declare(".data false, .starG isSpaceChar,
   .grpPlusG isWordChar, .plusG isSpaceChar, .lit "GIT_REPOSITORY".data false,
   .plusG isSpaceChar, .grpPlusL (fun _ => true), .plusG isSpaceChar,
   .lit "GIT_TAG".data false, .plusG isSpaceChar, .grpPlusG isTagChar]

/-! ### `extract_project_version` -/

/-- `extract_project_version` on the text of the root configuration file:
`version_pattern.search(content)`, returning group 1 of the first match or
the sentinel `"unknown"`. -/
def extract_project_version (content : String) : String :=
  match searchCaps versionElems content.data with
  | some (tok :: _) => String.mk tok
  | _ => "unknown"

/-! ### `extract_fetch_content_dependencies` -/

/-- The `(name, (repo, version))` triples of the `FetchContent_Declare`
matches of the text, in encounter order. -/
def declTriples (content : String) : List (String × String × String) :=
  (finditerCaps declareElems content).filterMap (fun caps =>
    match caps with
    | [n, r, v] => some (String.mk n, String.mk r, String.mk v)
    | _ => none)

/-- The `declared` dictionary of the script: every declaration is assigned in
encounter order, a later assignment to the same name overwriting the earlier
one; lookup of an absent name gives `none`. -/
def declaredDict (content : String) : String → Option (String × String) :=
  (declTriples content).foldl
    (fun m t => fun q => if q = t.1 then some t.2 else m q)
    (fun _ => none)

/-- The group-1 captures of the `FetchContent_MakeAvailable` matches of the
text, in encounter order. -/
def usageNames (content : String) : List String :=
  (finditerCaps fetchElems content).map (fun caps => String.mk (caps.headD []))

/-- One emitted dependency record, with the fields in the insertion order of
the Python dict literal. -/
structure Dep where
  name : String
  platforms : List String
  install : String
  version : String
  condition : String
  fetch_method : String
  repository : String
deriving DecidableEq

/-- `extract_fetch_content_dependencies` on the text of the secondary
configuration file: build the `declared` dictionary from the declaration
matches, then emit one record per usage match in encounter order, with
repository and version from the matching declaration or `"unknown"`. -/
def extract_fetch_content_dependencies (content : String) : List Dep :=
  let declared := declaredDict content
  (usageNames content).map (fun name =>
    let dep := (declared name).getD ("unknown", "unknown")
    { name := name
      platforms := ["Ubuntu", "macOS", "Windows"]
      install := "Fetched automatically via CMake FetchContent in Debug and FastDebug builds"
      version := dep.2
      condition := "Ubuntu/macOS: CMAKE_BUILD_TYPE=Debug or FastDebug.\nWindows (MinGW-UCRT): Fetched in any non-install build (including Release) to ensure stable testing without debug allocators."
      fetch_method := "FetchContent from GitHub"
      repository := dep.1 })

/-! ### `to_toml` -/

/-- A value of a rendered table field: the script only ever renders strings
and lists of strings. -/
inductive TomlVal where
  | str (s : String)
  | list (xs : List String)
deriving DecidableEq

/-- The three quote characters delimiting a TOML literal block. -/
def tripleQuote : String := String.mk ['\x27', '\x27', '\x27']

/-- A double-quoted scalar. -/
def quoteStr (s : String) : String := "\"" ++ s ++ "\""

/-- The bracketed comma-separated list of quoted scalars. -/
def renderListVal (xs : List String) : String :=
  "[" ++ String.intercalate ", " (xs.map quoteStr) ++ "]"

/-- One line of the `[project]` section for one key: lists render bracketed,
everything else as a quoted scalar (the project loop has no multi-line case). -/
def projFieldLine (k : String) (v : TomlVal) : String :=
  match v with
  | .list xs => k ++ " = " ++ renderListVal xs
  | .str s => k ++ " = " ++ quoteStr s

/-- The lines of one dependency-table field: lists render bracketed; strings
containing a line-break render as a triple-quoted block (opening line, the
raw value, closing line); other strings as a quoted scalar. -/
def depFieldLines (k : String) (v : TomlVal) : List String :=
  match v with
  | .list xs => [k ++ " = " ++ renderListVal xs]
  | .str s =>
    if s.data.contains '\n' then [k ++ " = " ++ tripleQuote, s, tripleQuote]
    else [k ++ " = " ++ quoteStr s]

/-- The project identity of the manifest model, with `source` an association
list in the insertion order of the Python dict literal. -/
structure ProjectData where
  name : String
  version : String
  description : String
  platforms : List String
  source : List (String × String)
deriving DecidableEq

/-- The manifest model passed to `to_toml`: the project identity and the
dependency tables, each table an association list of fields in insertion
order (the baseline table has four fields, the correlated records seven). -/
structure ManifestData where
  project : ProjectData
  dependencies : List (List (String × TomlVal))
deriving DecidableEq

/-- The `(key, value)` pairs the `[project]` loop of `to_toml` iterates over:
`for key in ["name", "version", "description", "platforms"]`. -/
def projPairs (p : ProjectData) : List (String × TomlVal) :=
  [("name", .str p.name), ("version", .str p.version),
   ("description", .str p.description), ("platforms", .list p.platforms)]

/-- The field view of an emitted dependency record, in the insertion order of
the Python dict literal. -/
def Dep.items (d : Dep) : List (String × TomlVal) :=
  [("name", .str d.name), ("platforms", .list d.platforms),
   ("install", .str d.install), ("version", .str d.version),
   ("condition", .str d.condition), ("fetch_method", .str d.fetch_method),
   ("repository", .str d.repository)]

/-- `to_toml`: the `[project]` section, the `[project.source]` section, and
one `[[dependencies]]` table per dependency, joined with newlines. -/
def to_toml (data : ManifestData) : String :=
  let p := data.project
  let projLines : List String :=
    ["[project]"] ++ (projPairs p).map (fun kv => projFieldLine kv.1 kv.2) ++
    [""] ++ ["[project.source]"] ++
    p.source.map (fun kv => kv.1 ++ " = " ++ quoteStr kv.2) ++ [""]
  let depLines : List String :=
    data.dependencies.flatMap (fun dep =>
      ["[[dependencies]]"] ++
      dep.flatMap (fun kv => depFieldLines kv.1 kv.2) ++ [""])
  String.intercalate "\n" (projLines ++ depLines)

/-! ### `main` -/

/-- The badge descriptor, fields in the insertion order of the Python dict. -/
structure Badge where
  schemaVersion : Nat
  label : String
  message : String
  labelColor : String
  namedLogo : String
  color : String
  style : String
deriving DecidableEq

/-- The content written to an output file: the TOML text written with
`f.write`, or the badge record written with `json.dump`. -/
inductive FileContent where
  | text (s : String)
  | badgeJson (b : Badge)
deriving DecidableEq

/-- The observable effects of one run: the lines printed to standard output
and the files written, as `(path, content)` in write order. -/
structure RunOutput where
  printed : List String
  files : List (String × FileContent)
deriving DecidableEq

/-- `dependencies_file`, relative to the project root. -/
def dependencies_file : String := "dependencies.toml"

/-- `badge_file`, relative to the project root. -/
def badge_file : String := "version_badge.json"

/-- The warning printed when the root configuration file is missing (the
runtime-dependent absolute-path prefix of `cmake_file` is elided). -/
def cmake_warning : String := "Warning: CMakeLists.txt not found."

/-- The warning printed when the secondary configuration file is missing. -/
def test_cmake_warning : String := "Warning: tests/CMakeLists.txt not found."

/-- The whole of `extract_project_version` including its file access: a
missing file (`none`) is caught as `FileNotFoundError`, prints a warning and
yields the sentinel. -/
def version_of (cmake_text : Option String) : String :=
  match cmake_text with
  | none => "unknown"
  | some t => extract_project_version t

/-- The warning lines `extract_project_version` prints. -/
def version_warnings (cmake_text : Option String) : List String :=
  match cmake_text with
  | none => [cmake_warning]
  | some _ => []

/-- The whole of `extract_fetch_content_dependencies` including its file
access: a missing file is caught, prints a warning and yields no records. -/
def deps_of (test_cmake_text : Option String) : List Dep :=
  match test_cmake_text with
  | none => []
  | some t => extract_fetch_content_dependencies t

/-- The warning lines `extract_fetch_content_dependencies` prints. -/
def deps_warnings (test_cmake_text : Option String) : List String :=
  match test_cmake_text with
  | none => [test_cmake_warning]
  | some _ => []

/-- The fixed C++20 Standard Library table that `main` prepends to the
dependency listing (four fields only). -/
def cpp_baseline : List (String × TomlVal) :=
  [("name", .str "C++20 Standard Library"),
   ("platforms", .list ["Ubuntu", "macOS", "Windows"]),
   ("install", .str "Supports GCC 13+ and Clang 15+.\nRecommended compilers: GCC 14.2+ (official Ubuntu builds only; PPA builds are not recommended), 14.3+, or Clang LLVM 20 (stable release).\nNote that LLVM 17/18 provided via Homebrew may not be fully stable and should be avoided in production, similar to the unrecommended GCC PPA builds."),
   ("version", .str "C++20")]

/-- The `data` dictionary assembled in `main`: hardcoded project identity
with the resolved version, and the baseline table followed by the correlated
dependency records. -/
def build_data (version : String) (deps : List Dep) : ManifestData :=
  { project :=
      { name := "JH-Toolkit"
        version := version
        description := "A cross-platform C++20 toolkit library"
        platforms := ["Ubuntu", "macOS", "Windows"]
        source := [("repository", "https://github.com/JeongHan-Bae/JH-Toolkit"),
                   ("download", "git clone https://github.com/JeongHan-Bae/JH-Toolkit.git")] }
    dependencies := cpp_baseline :: deps.map Dep.items }

/-- The `badge` dictionary assembled in `main`. -/
def build_badge (version : String) : Badge :=
  { schemaVersion := 1
    label := "JH-Toolkit"
    message := version
    labelColor := "#555555"
    namedLogo := "github"
    color := "#559900"
    style := "flat" }

/-- The script's `main(get_version_only)` (named `main_run` here because Lean
reserves `main` for an executable entry point): resolve the version; with the
flag set, print it and stop.  Otherwise extract the dependencies, assemble the
model, write the TOML manifest and the badge descriptor and print the
confirmations.  The two configuration texts are `none` when the corresponding
file is missing. -/
def main_run (cmake_text test_cmake_text : Option String)
    (get_version_only : Bool) : RunOutput :=
  let version := version_of cmake_text
  if get_version_only then
    { printed := version_warnings cmake_text ++ [version], files := [] }
  else
    let deps := deps_of test_cmake_text
    let data := build_data version deps
    let toml_text := to_toml data
    { printed := version_warnings cmake_text ++ deps_warnings test_cmake_text ++
        ["✅ Generated " ++ dependencies_file, "✅ Generated " ++ badge_file]
      files := [(dependencies_file, .text toml_text),
                (badge_file, .badgeJson (build_badge version))] }

/-! ### Deterministic characterization of the version pattern

At every boundary of the version pattern the adjacent character classes are
disjoint (whitespace against `(`, `P`, `)` and against `[\d.]`, and `[\d.]`
against `)`), so the backtracking exploration is deterministic: only the
maximal-munch split of every quantifier can lead to a full match.  The scan
below states that deterministic reading; it is proved equal to the
backtracking matcher and doubles as the formalization of the spec's
statement shape "set project-version to token" at a given position
(case-insensitive keywords, whitespace-tolerant, dotted numeric token). -/

/-- Deterministic left-to-right scan of one version-setting statement at the
head of the input, yielding the token and the remaining input. -/
def versionScan (cs : List Char) : Option (List Char × List Char) :=
  match stripLit litSET true cs with
  | none => none
  | some cs1 =>
    match stripLit litLP true (cs1.dropWhile isSpaceChar) with
    | none => none
    | some cs3 =>
      match stripLit litPV true (cs3.dropWhile isSpaceChar) with
      | none => none
      | some cs5 =>
        if cs5.takeWhile isSpaceChar = [] then none
        else
          if (cs5.dropWhile isSpaceChar).takeWhile isVerChar = [] then none
          else
            match stripLit litRP true
                (((cs5.dropWhile isSpaceChar).dropWhile isVerChar).dropWhile
                  isSpaceChar) with
            | none => none
            | some cs9 =>
              some ((cs5.dropWhile isSpaceChar).takeWhile isVerChar, cs9)

/-- The token of the first position, scanning left to right, at which a
version-setting statement starts (`re.search` restricted to the version
pattern, stated with the deterministic scan). -/
def firstScanTok : List Char → Option (List Char)
  | [] => (versionScan []).map Prod.fst
  | c :: tl =>
    match versionScan (c :: tl) with
    | some r => some r.1
    | none => firstScanTok tl

/-- Modelled from the spec: the field-rendering contract of the flow-style
serializer, "list-valued fields render as a bracketed comma-separated list of
quoted scalars; string fields containing an embedded line-break render as a
triple-delimited literal block; all other string fields render as a single
quoted scalar" (one rendered line per list element of the result). -/
def specFieldLines (k : String) (v : TomlVal) : List String :=
  match v with
  | .list xs =>
    [k ++ " = " ++ ("[" ++ String.intercalate ", " (xs.map quoteStr) ++ "]")]
  | .str s =>
    if s.data.contains '\n' then
      [k ++ " = " ++ tripleQuote] ++ [s] ++ [tripleQuote]
    else [k ++ " = " ++ quoteStr s]

/-! ### Equation lemmas for the matcher -/

theorem matchElems_nil (cs : List Char) (caps : List (List Char)) :
    matchElems [] cs caps = some (cs, caps) := by
  simp [matchElems]

theorem matchElems_lit (s : List Char) (ci : Bool) (rest : List RElem)
    (cs : List Char) (caps : List (List Char)) :
    matchElems (.lit s ci :: rest) cs caps =
      match stripLit s ci cs with
      | some cs' => matchElems rest cs' caps
      | none => none := by
  rw [matchElems]

theorem matchElems_starG (p : Char → Bool) (rest : List RElem)
    (cs : List Char) (caps : List (List Char)) :
    matchElems (.starG p :: rest) cs caps =
      tryCands rest (greedyStarCands p cs) caps false := by
  rw [matchElems]

theorem matchElems_plusG (p : Char → Bool) (rest : List RElem)
    (cs : List Char) (caps : List (List Char)) :
    matchElems (.plusG p :: rest) cs caps =
      tryCands rest (greedyPlusCands p cs) caps false := by
  rw [matchElems]

theorem matchElems_grpPlusG (p : Char → Bool) (rest : List RElem)
    (cs : List Char) (caps : List (List Char)) :
    matchElems (.grpPlusG p :: rest) cs caps =
      tryCands rest (greedyPlusCands p cs) caps true := by
  rw [matchElems]

theorem tryCands_nil (es : List RElem) (caps : List (List Char)) (capIt : Bool) :
    tryCands es [] caps capIt = none := by
  rw [tryCands]

theorem tryCands_cons (es : List RElem) (a b : List Char)
    (more : List (List Char × List Char)) (caps : List (List Char))
    (capIt : Bool) :
    tryCands es ((a, b) :: more) caps capIt =
      match matchElems es b (if capIt then caps ++ [a] else caps) with
      | some r => some r
      | none => tryCands es more caps capIt := by
  rw [tryCands]

/-! ### Character-class facts used by the version pattern -/

theorem lowerChar_eq_self {c : Char} (h : ¬(65 ≤ c.toNat ∧ c.toNat ≤ 90)) :
    lowerChar c = c := by
  unfold lowerChar
  rw [if_neg h]

theorem isVerChar_elim {c : Char} (h : isVerChar c = true) :
    (∃ r ∈ ndRanges, r.1 ≤ c.toNat ∧ c.toNat ≤ r.2) ∨ c = '.' := by
  simpa [isVerChar, isNdDigit, List.any_eq_true] using h

theorem ndRanges_lo_ge : ∀ r ∈ ndRanges, 48 ≤ r.1 := by decide

theorem ndRanges_no_upper : ∀ r ∈ ndRanges, r.2 < 65 ∨ 90 < r.1 := by decide

/-- Every version character is the dot or has a code point at least 48 that
avoids the upper-case ASCII range. -/
theorem isVerChar_toNat {c : Char} (h : isVerChar c = true) :
    c = '.' ∨ (48 ≤ c.toNat ∧ (c.toNat < 65 ∨ 90 < c.toNat)) := by
  rcases isVerChar_elim h with ⟨r, hr, h1, h2⟩ | h
  · have hlo := ndRanges_lo_ge r hr
    rcases ndRanges_no_upper r hr with hu | hu
    · exact Or.inr ⟨by omega, Or.inl (by omega)⟩
    · exact Or.inr ⟨by omega, Or.inr (by omega)⟩
  · exact Or.inl h

theorem isSpaceChar_elim {c : Char} (h : isSpaceChar c = true) :
    c = ' ' ∨ c = '\t' ∨ c = '\n' ∨ c = '\r' ∨ c = '\x0b' ∨ c = '\x0c' := by
  simpa [isSpaceChar, or_assoc] using h

theorem charMatch_lp_of_space {c : Char} (h : isSpaceChar c = true) :
    charMatch true '(' c = false := by
  rcases isSpaceChar_elim h with h | h | h | h | h | h <;> subst h <;> decide

theorem charMatch_p_of_space {c : Char} (h : isSpaceChar c = true) :
    charMatch true 'P' c = false := by
  rcases isSpaceChar_elim h with h | h | h | h | h | h <;> subst h <;> decide

theorem charMatch_rp_of_space {c : Char} (h : isSpaceChar c = true) :
    charMatch true ')' c = false := by
  rcases isSpaceChar_elim h with h | h | h | h | h | h <;> subst h <;> decide

theorem isVerChar_of_space {c : Char} (h : isSpaceChar c = true) :
    isVerChar c = false := by
  rcases isSpaceChar_elim h with h | h | h | h | h | h <;> subst h <;> decide

theorem isSpaceChar_of_ver {c : Char} (h : isVerChar c = true) :
    isSpaceChar c = false := by
  rcases isVerChar_toNat h with h | ⟨h1, _⟩
  · subst h; decide
  · simp only [isSpaceChar, Bool.or_eq_false_iff, beq_eq_false_iff_ne]
    and_intros <;> (intro he; subst he; revert h1; decide)

theorem charMatch_rp_of_ver {c : Char} (h : isVerChar c = true) :
    charMatch true ')' c = false := by
  rcases isVerChar_toNat h with h | ⟨h1, h2⟩
  · subst h; decide
  · have hlc : lowerChar c = c := lowerChar_eq_self (by omega)
    have hrp : lowerChar ')' = ')' := by decide
    have hne : (')' : Char) ≠ c := by intro he; subst he; revert h1; decide
    simp [charMatch, hlc, hrp, hne]

/-! ### Structure of the candidate lists -/

theorem prefixSplits_reverse_shape (p : Char → Bool) (cs : List Char) :
    ∃ others, (prefixSplits p cs).reverse =
        (cs.takeWhile p, cs.dropWhile p) :: others ∧
      ∀ ab ∈ others, ∃ c l, ab.2 = c :: l ∧ p c = true := by
  induction cs with
  | nil => exact ⟨[], by simp [prefixSplits], by simp⟩
  | cons c cs ih =>
    by_cases hc : p c
    · obtain ⟨others, heq, hoth⟩ := ih
      refine ⟨others.map (fun pr => (c :: pr.1, pr.2)) ++ [([], c :: cs)], ?_, ?_⟩
      · show (prefixSplits p (c :: cs)).reverse = _
        rw [prefixSplits]
        simp only [hc, if_true, List.reverse_cons]
        rw [← List.map_reverse, heq]
        simp [List.takeWhile_cons_of_pos hc, List.dropWhile_cons_of_pos hc]
      · intro ab hab
        rcases List.mem_append.mp hab with hab | hab
        · obtain ⟨x, hx, hxe⟩ := List.mem_map.mp hab
          obtain ⟨d, l, hdl, hd⟩ := hoth x hx
          exact ⟨d, l, by rw [← hxe]; exact hdl, hd⟩
        · rcases List.mem_singleton.mp hab with h
          exact ⟨c, cs, by rw [h], hc⟩
    · refine ⟨[], ?_, by simp⟩
      simp [prefixSplits, hc, List.takeWhile_cons_of_neg, List.dropWhile_cons_of_neg]

theorem greedyStarCands_shape (p : Char → Bool) (cs : List Char) :
    ∃ others, greedyStarCands p cs =
        (cs.takeWhile p, cs.dropWhile p) :: others ∧
      ∀ ab ∈ others, ∃ c l, ab.2 = c :: l ∧ p c = true :=
  prefixSplits_reverse_shape p cs

theorem greedyPlusCands_empty (p : Char → Bool) (cs : List Char)
    (h : cs.takeWhile p = []) : greedyPlusCands p cs = [] := by
  cases cs with
  | nil => simp [greedyPlusCands, prefixSplits]
  | cons c cs =>
    rw [List.takeWhile_cons] at h
    by_cases hc : p c
    · simp [hc] at h
    · simp [greedyPlusCands, prefixSplits, hc]

theorem greedyPlusCands_shape (p : Char → Bool) (cs : List Char)
    (h : cs.takeWhile p ≠ []) :
    ∃ others, greedyPlusCands p cs =
        (cs.takeWhile p, cs.dropWhile p) :: others ∧
      ∀ ab ∈ others, ∃ c l, ab.2 = c :: l ∧ p c = true := by
  obtain ⟨others, heq, hoth⟩ := prefixSplits_reverse_shape p cs
  have hfr : greedyPlusCands p cs =
      ((prefixSplits p cs).reverse).filter (fun pr => !pr.1.isEmpty) := by
    rw [greedyPlusCands, List.filter_reverse]
  refine ⟨others.filter (fun pr => !pr.1.isEmpty), ?_, ?_⟩
  · rw [hfr, heq, List.filter_cons_of_pos]
    simpa using h
  · intro ab hab
    exact hoth ab (List.mem_of_mem_filter hab)

/-! ### Deterministic reductions of the matcher -/

theorem tryCands_none_of_fail (es : List RElem)
    (cands : List (List Char × List Char)) (caps : List (List Char))
    (capIt : Bool)
    (h : ∀ ab ∈ cands, ∀ caps', matchElems es ab.2 caps' = none) :
    tryCands es cands caps capIt = none := by
  induction cands with
  | nil => exact tryCands_nil es caps capIt
  | cons ab more ih =>
    obtain ⟨a, b⟩ := ab
    rw [tryCands_cons, h (a, b) (List.mem_cons_self _ _)]
    exact ih (fun ab hab caps' => h ab (List.mem_cons_of_mem _ hab) caps')

/-- A greedy star whose continuation cannot start with a class character is
deterministic: only the maximal split can succeed. -/
theorem matchElems_starG_skip (p : Char → Bool) (rest : List RElem)
    (cs : List Char) (caps : List (List Char))
    (hfail : ∀ c l caps', p c = true → matchElems rest (c :: l) caps' = none) :
    matchElems (.starG p :: rest) cs caps =
      matchElems rest (cs.dropWhile p) caps := by
  obtain ⟨others, heq, hoth⟩ := greedyStarCands_shape p cs
  rw [matchElems_starG, heq, tryCands_cons]
  cases hm : matchElems rest (cs.dropWhile p) caps with
  | some r => simp only [Bool.false_eq_true, if_false, hm]
  | none =>
    simp only [Bool.false_eq_true, if_false, hm]
    rw [tryCands_none_of_fail]
    intro ab hab caps'
    obtain ⟨c, l, habe, hc⟩ := hoth ab hab
    rw [habe]
    exact hfail c l caps' hc

/-- A greedy plus whose continuation cannot start with a class character is
deterministic: it requires a nonempty run and consumes all of it. -/
theorem matchElems_plusG_skip (p : Char → Bool) (rest : List RElem)
    (cs : List Char) (caps : List (List Char))
    (hfail : ∀ c l caps', p c = true → matchElems rest (c :: l) caps' = none) :
    matchElems (.plusG p :: rest) cs caps =
      if cs.takeWhile p = [] then none
      else matchElems rest (cs.dropWhile p) caps := by
  by_cases h : cs.takeWhile p = []
  · rw [matchElems_plusG, greedyPlusCands_empty p cs h, tryCands_nil, if_pos h]
  · obtain ⟨others, heq, hoth⟩ := greedyPlusCands_shape p cs h
    rw [matchElems_plusG, heq, tryCands_cons, if_neg h]
    cases hm : matchElems rest (cs.dropWhile p) caps with
    | some r => simp only [Bool.false_eq_true, if_false, hm]
    | none =>
      simp only [Bool.false_eq_true, if_false, hm]
      rw [tryCands_none_of_fail]
      intro ab hab caps'
      obtain ⟨c, l, habe, hc⟩ := hoth ab hab
      rw [habe]
      exact hfail c l caps' hc

/-- A capturing greedy plus whose continuation cannot start with a class
character is deterministic: it captures exactly the maximal run. -/
theorem matchElems_grpPlusG_skip (p : Char → Bool) (rest : List RElem)
    (cs : List Char) (caps : List (List Char))
    (hfail : ∀ c l caps', p c = true → matchElems rest (c :: l) caps' = none) :
    matchElems (.grpPlusG p :: rest) cs caps =
      if cs.takeWhile p = [] then none
      else matchElems rest (cs.dropWhile p) (caps ++ [cs.takeWhile p]) := by
  by_cases h : cs.takeWhile p = []
  · rw [matchElems_grpPlusG, greedyPlusCands_empty p cs h, tryCands_nil, if_pos h]
  · obtain ⟨others, heq, hoth⟩ := greedyPlusCands_shape p cs h
    rw [matchElems_grpPlusG, heq, tryCands_cons, if_neg h]
    cases hm : matchElems rest (cs.dropWhile p) (caps ++ [cs.takeWhile p]) with
    | some r => simp only [if_true, hm]
    | none =>
      simp only [if_true, hm]
      rw [tryCands_none_of_fail]
      intro ab hab caps'
      obtain ⟨c, l, habe, hc⟩ := hoth ab hab
      rw [habe]
      exact hfail c l caps' hc

theorem lit_head_fail {a : Char} {s : List Char} {ci : Bool} {c : Char}
    {l : List Char} (rest : List RElem) (caps : List (List Char))
    (h : charMatch ci a c = false) :
    matchElems (.lit (a :: s) ci :: rest) (c :: l) caps = none := by
  rw [matchElems_lit]
  simp [stripLit, h]

theorem grpPlusG_head_fail {q : Char → Bool} {c : Char} {l : List Char}
    (rest : List RElem) (caps : List (List Char)) (h : q c = false) :
    matchElems (.grpPlusG q :: rest) (c :: l) caps = none := by
  rw [matchElems_grpPlusG, greedyPlusCands_empty, tryCands_nil]
  simp [List.takeWhile_cons_of_neg, h]

theorem starG_lp_step (rest : List RElem) (cs : List Char)
    (caps : List (List Char)) :
    matchElems (.starG isSpaceChar :: .lit litLP true :: rest) cs caps =
      matchElems (.lit litLP true :: rest) (cs.dropWhile isSpaceChar) caps :=
  matchElems_starG_skip _ _ _ _
    (fun _ _ caps' hc => lit_head_fail _ caps' (charMatch_lp_of_space hc))

theorem starG_pv_step (rest : List RElem) (cs : List Char)
    (caps : List (List Char)) :
    matchElems (.starG isSpaceChar :: .lit litPV true :: rest) cs caps =
      matchElems (.lit litPV true :: rest) (cs.dropWhile isSpaceChar) caps :=
  matchElems_starG_skip _ _ _ _
    (fun _ _ caps' hc => lit_head_fail _ caps' (charMatch_p_of_space hc))

theorem starG_rp_step (rest : List RElem) (cs : List Char)
    (caps : List (List Char)) :
    matchElems (.starG isSpaceChar :: .lit litRP true :: rest) cs caps =
      matchElems (.lit litRP true :: rest) (cs.dropWhile isSpaceChar) caps :=
  matchElems_starG_skip _ _ _ _
    (fun _ _ caps' hc => lit_head_fail _ caps' (charMatch_rp_of_space hc))

theorem plusG_ver_step (rest : List RElem) (cs : List Char)
    (caps : List (List Char)) :
    matchElems (.plusG isSpaceChar :: .grpPlusG isVerChar :: rest) cs caps =
      if cs.takeWhile isSpaceChar = [] then none
      else matchElems (.grpPlusG isVerChar :: rest)
        (cs.dropWhile isSpaceChar) caps :=
  matchElems_plusG_skip _ _ _ _
    (fun _ _ caps' hc => grpPlusG_head_fail _ caps' (isVerChar_of_space hc))

theorem grpPlusG_ver_step (rest : List RElem) (cs : List Char)
    (caps : List (List Char)) :
    matchElems
        (.grpPlusG isVerChar :: .starG isSpaceChar :: .lit litRP true :: rest)
        cs caps =
      if cs.takeWhile isVerChar = [] then none
      else matchElems (.starG isSpaceChar :: .lit litRP true :: rest)
        (cs.dropWhile isVerChar) (caps ++ [cs.takeWhile isVerChar]) := by
  refine matchElems_grpPlusG_skip _ _ _ _ ?_
  intro c l caps' hc
  rw [starG_rp_step, List.dropWhile_cons_of_neg]
  · exact lit_head_fail _ caps' (charMatch_rp_of_ver hc)
  · simp [isSpaceChar_of_ver hc]

/-- The backtracking matcher agrees with the deterministic scan on the whole
version pattern. -/
theorem matchElems_version_eq (cs : List Char) (caps : List (List Char)) :
    matchElems versionElems cs caps =
      (versionScan cs).map (fun t => (t.2, caps ++ [t.1])) := by
  unfold versionElems versionScan
  rw [matchElems_lit]
  cases h1 : stripLit litSET true cs with
  | none => rfl
  | some cs1 =>
    dsimp only
    rw [starG_lp_step, matchElems_lit]
    cases h3 : stripLit litLP true (cs1.dropWhile isSpaceChar) with
    | none => rfl
    | some cs3 =>
      dsimp only
      rw [starG_pv_step, matchElems_lit]
      cases h5 : stripLit litPV true (cs3.dropWhile isSpaceChar) with
      | none => rfl
      | some cs5 =>
        dsimp only
        rw [plusG_ver_step]
        by_cases h6 : cs5.takeWhile isSpaceChar = []
        · simp [h6]
        · rw [if_neg h6, grpPlusG_ver_step]
          by_cases h7 : (cs5.dropWhile isSpaceChar).takeWhile isVerChar = []
          · simp [h6, h7]
          · rw [if_neg h7, starG_rp_step, matchElems_lit]
            cases h9 : stripLit litRP true
                (((cs5.dropWhile isSpaceChar).dropWhile isVerChar).dropWhile
                  isSpaceChar) with
            | none => simp [h6, h7]
            | some cs9 =>
              dsimp only
              simp [h6, h7, matchElems_nil]

/-! ### From the matcher to the deterministic scan -/

theorem versionScan_nil : versionScan [] = none := rfl

theorem searchCaps_version (cs : List Char) :
    searchCaps versionElems cs = (firstScanTok cs).map (fun t => [t]) := by
  induction cs with
  | nil =>
    rw [searchCaps, firstScanTok, matchElems_version_eq, versionScan_nil]
    rfl
  | cons c tl ih =>
    rw [searchCaps, firstScanTok, matchElems_version_eq]
    cases h : versionScan (c :: tl) with
    | some r => rfl
    | none => exact ih

theorem extract_project_version_eq (content : String) :
    extract_project_version content =
      match firstScanTok content.data with
      | some t => String.mk t
      | none => "unknown" := by
  unfold extract_project_version
  rw [searchCaps_version]
  cases firstScanTok content.data <;> rfl

/-- Every token produced by the scan is a nonempty run of version
characters. -/
theorem versionScan_tok {cs tok rem : List Char}
    (h : versionScan cs = some (tok, rem)) :
    tok ≠ [] ∧ ∀ c ∈ tok, isVerChar c = true := by
  unfold versionScan at h
  split at h
  · exact absurd h (by simp)
  split at h
  · exact absurd h (by simp)
  split at h
  · exact absurd h (by simp)
  split at h
  · exact absurd h (by simp)
  split at h
  · exact absurd h (by simp)
  next h7 =>
    split at h
    · exact absurd h (by simp)
    next cs9 h9 =>
      simp only [Option.some.injEq, Prod.mk.injEq] at h
      obtain ⟨htok, _⟩ := h
      subst htok
      exact ⟨h7, fun c hc => List.mem_takeWhile_imp hc⟩

/-- If a statement is present nowhere, the scanning search fails. -/
theorem firstScanTok_eq_none (cs : List Char)
    (h : ∀ i, versionScan (cs.drop i) = none) : firstScanTok cs = none := by
  induction cs with
  | nil => rw [firstScanTok, versionScan_nil]; rfl
  | cons c tl ih =>
    rw [firstScanTok]
    have h0 : versionScan (c :: tl) = none := h 0
    rw [h0]
    exact ih (fun i => by simpa [List.drop_succ_cons] using h (i + 1))

/-- A successful scanning search exhibits a statement at some position. -/
theorem firstScanTok_sound {cs : List Char} {tok : List Char}
    (h : firstScanTok cs = some tok) :
    ∃ i rem, versionScan (cs.drop i) = some (tok, rem) := by
  induction cs with
  | nil =>
    rw [firstScanTok, versionScan_nil] at h
    exact absurd h (by simp)
  | cons c tl ih =>
    rw [firstScanTok] at h
    cases hv : versionScan (c :: tl) with
    | some r =>
      rw [hv] at h
      simp only [Option.some.injEq] at h
      exact ⟨0, r.2, by rw [List.drop_zero, hv, ← h]⟩
    | none =>
      rw [hv] at h
      obtain ⟨i, rem, hi⟩ := ih h
      exact ⟨i + 1, rem, by simpa [List.drop_succ_cons] using hi⟩

/-- A statement at any position makes the scanning search succeed. -/
theorem firstScanTok_complete {cs : List Char} {i : Nat}
    {tok rem : List Char} (h : versionScan (cs.drop i) = some (tok, rem)) :
    ∃ t, firstScanTok cs = some t := by
  induction cs generalizing i with
  | nil =>
    rw [List.drop_nil, versionScan_nil] at h
    exact absurd h (by simp)
  | cons c tl ih =>
    cases i with
    | zero =>
      rw [List.drop_zero] at h
      exact ⟨tok, by rw [firstScanTok, h]⟩
    | succ i =>
      rw [List.drop_succ_cons] at h
      obtain ⟨t, ht⟩ := ih h
      rw [firstScanTok]
      cases hv : versionScan (c :: tl) with
      | some r => exact ⟨r.1, rfl⟩
      | none => exact ⟨t, ht⟩

/-! ### Claims about the Version Resolver -/

/-- Claim C2: for every root configuration text containing exactly one
version-setting statement with token `V` (the statement scan succeeds with
token `V` at exactly one position), the Version Resolver returns `V`
verbatim, including trailing zero components; and for every text containing
no version-setting statement it returns the sentinel `"unknown"`. -/
theorem C2_version_resolver (s : String) :
    ((∀ i < s.data.length, versionScan (s.data.drop i) = none) →
      extract_project_version s = "unknown") ∧
    (∀ V : List Char, ∀ i : Nat,
      (versionScan (s.data.drop i)).map Prod.fst = some V →
      (∀ j < s.data.length, j ≠ i → versionScan (s.data.drop j) = none) →
      extract_project_version s = String.mk V) := by
  have hbig : ∀ j, s.data.length ≤ j → versionScan (s.data.drop j) = none := by
    intro j hj
    rw [List.drop_eq_nil_of_le hj, versionScan_nil]
  constructor
  · intro h
    rw [extract_project_version_eq, firstScanTok_eq_none]
    intro i
    by_cases hi : i < s.data.length
    · exact h i hi
    · exact hbig i (le_of_not_lt hi)
  · intro V i hV huniq
    obtain ⟨x, hscan, hx1⟩ := Option.map_eq_some'.mp hV
    obtain ⟨tok, rem⟩ := x
    obtain ⟨t, ht⟩ := firstScanTok_complete hscan
    obtain ⟨j, rem', hj⟩ := firstScanTok_sound ht
    have hji : j = i := by
      by_contra hne
      by_cases hjlen : j < s.data.length
      · rw [huniq j hjlen hne] at hj
        exact absurd hj (by simp)
      · rw [hbig j (le_of_not_lt hjlen)] at hj
        exact absurd hj (by simp)
    subst hji
    rw [hscan] at hj
    simp only [Option.some.injEq, Prod.mk.injEq] at hj
    have hx1' : tok = V := hx1
    rw [extract_project_version_eq, ht, ← hj.1, hx1']

/-- Witness for C2 at concrete inputs: a text with exactly one
version-setting statement (with a trailing zero component), and a text with
none. -/
theorem C2_version_resolver_witness :
    extract_project_version "set(PROJECT_VERSION 1.3.0)" = "1.3.0" ∧
    extract_project_version "no version here" = "unknown" := by
  constructor
  · exact (C2_version_resolver "set(PROJECT_VERSION 1.3.0)").2
      "1.3.0".data 0 (by decide) (by decide)
  · exact (C2_version_resolver "no version here").1 (by decide)

/-- Counterexample for claim C10: the token class `[\d.]` admits any
Unicode decimal digit, so a version-setting statement whose token is written
with Arabic-Indic digits matches, and the resolver returns that token — a
result that is neither the sentinel nor a string of ASCII digits and
dots. -/
theorem C10_counterexample :
    extract_project_version "set(PROJECT_VERSION ٣.٢)" = "٣.٢" ∧
    ¬(extract_project_version "set(PROJECT_VERSION ٣.٢)" = "unknown" ∨
      ∀ c ∈ (extract_project_version "set(PROJECT_VERSION ٣.٢)").data,
        (48 ≤ c.toNat ∧ c.toNat ≤ 57) ∨ c = '.') := by
  have h : extract_project_version "set(PROJECT_VERSION ٣.٢)" = "٣.٢" := by
    rw [extract_project_version_eq]
    decide
  refine ⟨h, ?_⟩
  rw [h]
  decide

/-- Claim C10 amended: the Version Resolver's result is always either the
sentinel `"unknown"` or a nonempty string of characters of the token class —
Unicode decimal digits and dots; a token containing any character outside
that class (a pre-release suffix, a leading letter) leaves the statement
unmatched, yielding the sentinel rather than a partial token. -/
theorem C10_version_token_class (s : String) :
    (extract_project_version s = "unknown" ∨
      ((extract_project_version s).data ≠ [] ∧
        ∀ c ∈ (extract_project_version s).data, isVerChar c = true)) ∧
    extract_project_version "set(PROJECT_VERSION 2.0.1-rc1)" = "unknown" ∧
    extract_project_version "set(PROJECT_VERSION v2.0.1)" = "unknown" := by
  refine ⟨?_, ?_, ?_⟩
  · rw [extract_project_version_eq]
    cases h : firstScanTok s.data with
    | none => exact Or.inl rfl
    | some t =>
      obtain ⟨i, rem, hi⟩ := firstScanTok_sound h
      obtain ⟨hne, hall⟩ := versionScan_tok hi
      exact Or.inr ⟨hne, hall⟩
  · rw [extract_project_version_eq]
    decide
  · rw [extract_project_version_eq]
    decide

/-! ### Claims about the Dependency Correlator -/

theorem dictFold_lookup (l : List (String × String × String))
    (m0 : String → Option (String × String)) (q : String) :
    l.foldl (fun m t => fun r => if r = t.1 then some t.2 else m r) m0 q =
      match (l.filter (fun t => t.1 == q)).getLast? with
      | some t => some t.2
      | none => m0 q := by
  induction l generalizing m0 with
  | nil => simp
  | cons t ts ih =>
    rw [List.foldl_cons, ih]
    by_cases hq : t.1 = q
    · rw [List.filter_cons_of_pos (by simp [hq]), List.getLast?_cons]
      cases hlast : (ts.filter (fun t => t.1 == q)).getLast? with
      | some u => simp [hlast]
      | none => simp [hlast, hq]
    · rw [List.filter_cons_of_neg (by simp [hq])]
      cases hlast : (ts.filter (fun t => t.1 == q)).getLast? with
      | some u => simp [hlast]
      | none =>
        simp only [hlast]
        rw [if_neg (fun he => hq he.symm)]

/-- Claim C1: for every secondary configuration text the correlator emits
exactly one record per usage statement, in encounter order with duplicates
preserved (the emitted sequence is pointwise aligned with the usage-name
sequence), and each record's repository and version equal the declared pair
of the matching declaration when one exists, else the sentinel pair. -/
theorem C1_one_record_per_usage (s : String) (i : Nat) :
    (extract_fetch_content_dependencies s).length = (usageNames s).length ∧
    ((extract_fetch_content_dependencies s)[i]?).map Dep.name
      = (usageNames s)[i]? ∧
    ((extract_fetch_content_dependencies s)[i]?).map
        (fun d => (d.repository, d.version))
      = ((usageNames s)[i]?).map
          (fun n => (declaredDict s n).getD ("unknown", "unknown")) := by
  unfold extract_fetch_content_dependencies
  refine ⟨by simp, ?_, ?_⟩ <;>
    · rw [List.getElem?_map]
      cases (usageNames s)[i]? <;> rfl

/-- Claim C6: the declaration mapping is last-write-wins — looking up a name
yields the locator and revision pin of the last declaration of that name in
encounter order — and every emitted record resolves its name through that
mapping (so a multiply-declared name resolves to its last declared pair). -/
theorem C6_last_declaration_wins (s : String) (name : String) (i : Nat) :
    declaredDict s name =
      (((declTriples s).filter (fun t => t.1 == name)).getLast?).map
        (fun t => t.2) ∧
    ((extract_fetch_content_dependencies s)[i]?).map
        (fun d => (d.name, d.repository, d.version))
      = ((usageNames s)[i]?).map
          (fun n => (n, (declaredDict s n).getD ("unknown", "unknown"))) := by
  constructor
  · rw [declaredDict, dictFold_lookup]
    cases hlast : ((declTriples s).filter (fun t => t.1 == name)).getLast? with
    | some u => simp [hlast]
    | none => simp [hlast]
  · unfold extract_fetch_content_dependencies
    rw [List.getElem?_map]
    cases (usageNames s)[i]? <;> rfl

/-! ### Claims about the Manifest Assembler and the outputs -/

/-- Claim C3: the assembled manifest's dependency listing always contains the
fixed C++20 Standard Library baseline table, as its first element, preceding
every correlated dependency record. -/
theorem C3_baseline_always_first (ct tt : Option String) :
    (build_data (version_of ct) (deps_of tt)).dependencies.head? =
      some cpp_baseline ∧
    (build_data (version_of ct) (deps_of tt)).dependencies =
      cpp_baseline :: (deps_of tt).map Dep.items :=
  ⟨rfl, rfl⟩

/-- Claim C7: the badge message equals the resolved version string, which is
the same single value stored in the manifest's project identity; both output
files of a normal run are built from that one value. -/
theorem C7_badge_message_is_version (ct tt : Option String) :
    (build_badge (version_of ct)).message = version_of ct ∧
    (build_data (version_of ct) (deps_of tt)).project.version = version_of ct ∧
    (main_run ct tt false).files =
      [(dependencies_file,
        .text (to_toml (build_data (version_of ct) (deps_of tt)))),
       (badge_file, .badgeJson (build_badge (version_of ct)))] :=
  ⟨rfl, rfl, rfl⟩

theorem matchElems_fetch_nil : matchElems fetchElems [] [] = none := by
  unfold fetchElems
  rw [matchElems_lit]
  rfl

theorem matchElems_declare_nil : matchElems declareElems [] [] = none := by
  unfold declareElems
  rw [matchElems_lit]
  rfl

theorem usageNames_empty : usageNames "" = [] := by
  unfold usageNames finditerCaps
  show (finditerAux fetchElems (0 + 1) []).map _ = []
  unfold finditerAux
  rw [matchElems_fetch_nil]
  rfl

theorem declTriples_empty : declTriples "" = [] := by
  unfold declTriples finditerCaps
  show (finditerAux declareElems (0 + 1) []).filterMap _ = []
  unfold finditerAux
  rw [matchElems_declare_nil]
  rfl

theorem extract_fetch_empty : extract_fetch_content_dependencies "" = [] := by
  unfold extract_fetch_content_dependencies
  rw [usageNames_empty]
  rfl

/-- Claim C8: a missing configuration source does not abort the run: it is
recovered with a diagnostic warning and sentinel values, equivalent to
running the extractors on empty text; with both sources absent the version is
`"unknown"`, the dependency sequence is empty, and the manifest is still
written with the baseline table and the hardcoded project identity. -/
theorem C8_missing_sources_recovered :
    (main_run none none false).printed =
      [cmake_warning, test_cmake_warning,
       "✅ Generated " ++ dependencies_file, "✅ Generated " ++ badge_file] ∧
    version_of none = "unknown" ∧
    deps_of none = [] ∧
    extract_project_version "" = "unknown" ∧
    extract_fetch_content_dependencies "" = [] ∧
    (main_run none none false).files =
      [(dependencies_file, .text (to_toml (build_data "unknown" []))),
       (badge_file, .badgeJson (build_badge "unknown"))] ∧
    (build_data "unknown" []).dependencies = [cpp_baseline] ∧
    (build_data "unknown" []).project.name = "JH-Toolkit" ∧
    (build_data "unknown" []).project.version = "unknown" := by
  refine ⟨rfl, rfl, rfl, ?_, extract_fetch_empty, rfl, rfl, rfl, rfl⟩
  rw [extract_project_version_eq]
  decide

/-! ### Claims about the outputs of a run -/

/-- Counterexample for claim C5: a normal run writes exactly two files — the
flow-style manifest and the badge descriptor — so no structured-data manifest
file is written in addition to those two. -/
theorem C5_counterexample :
    (main_run none none false).files.length = 2 ∧
    (main_run none none false).files.map Prod.fst =
      [dependencies_file, badge_file] ∧
    ¬3 ≤ (main_run none none false).files.length :=
  ⟨rfl, rfl, by decide⟩

/-- Claim C5 amended: on every normal run the engine writes exactly two
files, the flow-style manifest rendering of the model and the badge
descriptor; no separate structured-data manifest file is produced. -/
theorem C5_two_output_files (ct tt : Option String) :
    (main_run ct tt false).files =
      [(dependencies_file,
        .text (to_toml (build_data (version_of ct) (deps_of tt)))),
       (badge_file, .badgeJson (build_badge (version_of ct)))] ∧
    (main_run ct tt false).files.map Prod.fst =
      [dependencies_file, badge_file] :=
  ⟨rfl, rfl⟩

/-- Counterexample for claim C9: with the version-only flag set and the root
configuration file missing, the entry point prints a diagnostic warning line
in addition to the resolved version string, so it does not print only the
version string (it does write no files). -/
theorem C9_counterexample :
    (main_run none none true).printed = [cmake_warning, "unknown"] ∧
    (main_run none none true).printed ≠ ["unknown"] ∧
    (main_run none none true).files = [] :=
  ⟨rfl, by decide, rfl⟩

/-- Claim C9 amended: with the version-only flag set the run creates or
modifies no output file and prints exactly the resolved version string,
preceded by the missing-file warning when the root source is absent. -/
theorem C9_version_only_writes_nothing (ct tt : Option String) :
    (main_run ct tt true).files = [] ∧
    (main_run ct tt true).printed = version_warnings ct ++ [version_of ct] :=
  ⟨rfl, rfl⟩

/-! ### Claim about the flow-style field rendering -/

/-- Any version string the resolver can produce is free of line breaks: it is
either the sentinel or a run of digits and dots. -/
theorem version_no_newline (ct : Option String) :
    (version_of ct).data.contains '\n' = false := by
  cases ct with
  | none => decide
  | some t =>
    show (extract_project_version t).data.contains '\n' = false
    rw [extract_project_version_eq]
    cases h : firstScanTok t.data with
    | none => decide
    | some tok =>
      obtain ⟨i, rem, hi⟩ := firstScanTok_sound h
      obtain ⟨_, hall⟩ := versionScan_tok hi
      have hmem : '\n' ∉ tok := by
        intro hmem
        exact absurd (hall _ hmem) (by decide)
      show tok.contains '\n' = false
      simpa using hmem

/-- Claim C4: in the flow-style rendering every rendered field follows the
contract — list fields render as a bracketed comma-separated list of quoted
scalars, string fields containing a line break render as a triple-delimited
block, all other string fields as a single quoted scalar.  The
dependency-table renderer satisfies this for every field; the project and
source tables satisfy it for every field they are actually rendered with,
because none of the project-identity values (including every resolvable
version string) contains a line break. -/
theorem C4_field_rendering (ct tt : Option String) (k : String) (v : TomlVal) :
    depFieldLines k v = specFieldLines k v ∧
    ((k, v) ∈ projPairs (build_data (version_of ct) (deps_of tt)).project →
      [projFieldLine k v] = specFieldLines k v) ∧
    (∀ val : String,
      (k, val) ∈ (build_data (version_of ct) (deps_of tt)).project.source →
      [k ++ " = " ++ quoteStr val] = specFieldLines k (.str val)) := by
  refine ⟨?_, ?_, ?_⟩
  · cases v <;> rfl
  · intro hmem
    have hv := version_no_newline ct
    simp only [projPairs, build_data, List.mem_cons, List.not_mem_nil,
      or_false, Prod.mk.injEq] at hmem
    rcases hmem with ⟨rfl, rfl⟩ | ⟨rfl, rfl⟩ | ⟨rfl, rfl⟩ | ⟨rfl, rfl⟩
    · decide
    · have hv' : '\n' ∉ (version_of ct).data := by simpa using hv
      simp [projFieldLine, specFieldLines, hv']
    · decide
    · rfl
  · intro val hval
    simp only [build_data, List.mem_cons, List.not_mem_nil, or_false,
      Prod.mk.injEq] at hval
    rcases hval with ⟨rfl, rfl⟩ | ⟨rfl, rfl⟩
    · decide
    · decide

/-- Witness for C4 at concrete fields of the actually assembled manifest. -/
theorem C4_field_rendering_witness :
    (("version", TomlVal.str "unknown") ∈
      projPairs (build_data (version_of none) (deps_of none)).project) ∧
    [projFieldLine "version" (TomlVal.str "unknown")] =
      specFieldLines "version" (TomlVal.str "unknown") ∧
    (("repository", "https://github.com/JeongHan-Bae/JH-Toolkit") ∈
      (build_data (version_of none) (deps_of none)).project.source) ∧
    ["repository" ++ " = " ++
        quoteStr "https://github.com/JeongHan-Bae/JH-Toolkit"] =
      specFieldLines "repository"
        (.str "https://github.com/JeongHan-Bae/JH-Toolkit") := by
  refine ⟨by decide, ?_, by decide, ?_⟩
  · exact (C4_field_rendering none none "version" (.str "unknown")).2.1
      (by decide)
  · exact (C4_field_rendering none none "repository"
      (.str "https://github.com/JeongHan-Bae/JH-Toolkit")).2.2
      "https://github.com/JeongHan-Bae/JH-Toolkit" (by decide)
